import Mathlib

/-!
Shallow embedding of the `datasage` RAG pipeline (chunker, loaders,
embedder, indexing engine) and proofs about its behaviour.

Python strings are modelled as `List Char`; Python dict metadata as an
association list with in-place update semantics (`setKey`); fallible or
possibly diverging code returns `Option`/`Except` (a `while` loop is
embedded with fuel, `none` meaning the loop does not terminate).
-/

/-- Metadata values: the code stores strings (name, path, type) and
natural numbers (chunk index, csv row) in document metadata. -/
inductive MVal where
  | str (s : String)
  | num (n : Nat)
deriving DecidableEq, Repr

/-- The `langchain_core.documents.Document` as used by this repository:
a (page_content, metadata) pair. Content is the character sequence of
the Python string. -/
structure Document where
  page_content : List Char
  metadata : List (String × MVal)
deriving DecidableEq, Repr

/-- Python `d = dict(m); d[k] = v`: overwrite the value in place if the
key is present (dict assignment keeps insertion order), otherwise append
the new binding at the end. -/
def setKey (m : List (String × MVal)) (k : String) (v : MVal) : List (String × MVal) :=
  if m.any (fun p => p.1 == k) then
    m.map (fun p => if p.1 == k then (k, v) else p)
  else
    m ++ [(k, v)]

/-- The body of the `while start < len(t)` loop of `TextChunker.chunk_one`
(`src/rag_engine/ingestion/chunker.py`), embedded with fuel: each
iteration emits the slice `t[start : start + chunk_size]` stamped with
metadata key "chunk" equal to `len(res)` (tracked here by `idx`), then
advances `start` to `start + chunk_size - overlap`. Fuel exhaustion
(`none`) models divergence of the Python loop. -/
def chunkAux (chunk_size overlap : Nat) (m : List (String × MVal)) (t : List Char) :
    Nat → Nat → Nat → Option (List Document)
  | 0, _, _ => none
  | fuel + 1, start, idx =>
    if start < t.length then
      match chunkAux chunk_size overlap m t fuel (start + chunk_size - overlap) (idx + 1) with
      | none => none
      | some rest =>
          some ({ page_content := (t.drop start).take chunk_size,
                  metadata := setKey m "chunk" (MVal.num idx) } :: rest)
    else
      some []

/-- `TextChunker.chunk_one`: split one document into overlapping windows.
`t.length + 1` units of fuel are enough for every terminating run of the
Python loop, since `start` strictly increases whenever
`overlap < chunk_size`; `none` means the Python loop diverges. -/
def TextChunker.chunk_one (chunk_size overlap : Nat) (doc : Document) :
    Option (List Document) :=
  chunkAux chunk_size overlap doc.metadata doc.page_content
    (doc.page_content.length + 1) 0 0

/-- `TextChunker.chunk_docs`: concatenate the chunks of each document in
input order (the Python loop extends one result list). -/
def TextChunker.chunk_docs (chunk_size overlap : Nat) :
    List Document → Option (List Document)
  | [] => some []
  | d :: ds =>
    match TextChunker.chunk_one chunk_size overlap d,
          TextChunker.chunk_docs chunk_size overlap ds with
    | some parts, some rest => some (parts ++ rest)
    | _, _ => none

/-- Arithmetic step for the chunk count: one loop iteration removes one
stride `s` from the remaining length `a`, and the ceiling count drops by
one. -/
lemma ceil_step (a s : Nat) (ha : 1 ≤ a) (hs : 1 ≤ s) :
    (a + s - 1) / s = (a - s + s - 1) / s + 1 := by
  rcases le_or_lt a s with h | h
  · have h0 : a - s = 0 := by omega
    rw [h0]
    have h1 : (0 + s - 1) / s = 0 := Nat.div_eq_of_lt (by omega)
    rw [h1]
    exact Nat.div_eq_of_lt_le (by omega) (by omega)
  · have h2 : a - s + s - 1 + s = a + s - 1 := by omega
    rw [← h2, Nat.add_div_right _ (by omega)]

/-- Main invariant of the chunking loop: with `overlap < chunk_size` and
enough fuel, the loop terminates; it produces `ceil((len - start) / (C - V))`
chunks; chunk `i` is the window `t[start + i*(C-V) : start + i*(C-V) + C]`,
its metadata is the source metadata with `"chunk"` set to its index, and
each emitted window starts strictly inside the content. -/
lemma chunkAux_spec (C V : Nat) (m : List (String × MVal)) (t : List Char)
    (hCV : V < C) :
    ∀ fuel start idx, t.length - start < fuel →
    ∃ l, chunkAux C V m t fuel start idx = some l ∧
      l.length = (t.length - start + (C - V) - 1) / (C - V) ∧
      ∀ i c, l[i]? = some c →
        c.page_content = (t.drop (start + i * (C - V))).take C ∧
        c.metadata = setKey m "chunk" (MVal.num (idx + i)) ∧
        start + i * (C - V) < t.length := by
  intro fuel
  induction fuel with
  | zero => intro start idx h; omega
  | succ f ih =>
    intro start idx h
    by_cases hlt : start < t.length
    · obtain ⟨rest, hrest, hlen, hprop⟩ := ih (start + C - V) (idx + 1) (by omega)
      refine ⟨{ page_content := (t.drop start).take C,
                metadata := setKey m "chunk" (MVal.num idx) } :: rest, ?_, ?_, ?_⟩
      · simp [chunkAux, hlt, hrest]
      · simp only [List.length_cons, hlen]
        have e1 : start + C - V = start + (C - V) := by omega
        rw [e1]
        have e2 : t.length - (start + (C - V)) = t.length - start - (C - V) := by omega
        rw [e2]
        exact (ceil_step (t.length - start) (C - V) (by omega) (by omega)).symm
      · intro i c hc
        cases i with
        | zero =>
          simp only [List.getElem?_cons_zero, Option.some.injEq] at hc
          subst hc
          refine ⟨by simp, by simp, by simpa using hlt⟩
        | succ j =>
          simp only [List.getElem?_cons_succ] at hc
          obtain ⟨h1, h2, h3⟩ := hprop j c hc
          have hmul : (j + 1) * (C - V) = j * (C - V) + (C - V) := Nat.succ_mul _ _
          have e3 : start + C - V + j * (C - V) = start + (j + 1) * (C - V) := by omega
          have e4 : idx + 1 + j = idx + (j + 1) := by omega
          refine ⟨?_, ?_, by omega⟩
          · rw [h1, e3]
          · rw [h2, e4]
    · refine ⟨[], by simp [chunkAux, hlt], ?_, by intro i c hc; simp at hc⟩
      have e0 : t.length - start = 0 := by omega
      simp only [List.length_nil, e0, Nat.zero_add]
      exact (Nat.div_eq_of_lt (by omega)).symm

/-- Specification of `chunk_one` under the intended configuration
`overlap < chunk_size`: the loop terminates, the chunk count is
`ceil(len / (C - V))`, and chunk `i` is the window starting at
`i * (C - V)`. -/
lemma chunk_one_spec (C V : Nat) (doc : Document) (hCV : V < C) :
    ∃ l, TextChunker.chunk_one C V doc = some l ∧
      l.length = (doc.page_content.length + (C - V) - 1) / (C - V) ∧
      ∀ i c, l[i]? = some c →
        c.page_content = (doc.page_content.drop (i * (C - V))).take C ∧
        c.metadata = setKey doc.metadata "chunk" (MVal.num i) ∧
        i * (C - V) < doc.page_content.length := by
  obtain ⟨l, h1, h2, h3⟩ :=
    chunkAux_spec C V doc.metadata doc.page_content hCV
      (doc.page_content.length + 1) 0 0 (by omega)
  refine ⟨l, h1, by simpa using h2, ?_⟩
  intro i c hc
  obtain ⟨a, b, d⟩ := h3 i c hc
  exact ⟨by simpa using a, by simpa using b, by simpa using d⟩

/-- Any ceiling division rounded back up by the stride covers the length:
`L ≤ ceil(L / s) * s`. -/
lemma ceil_mul_ge (L s : Nat) (hs : 1 ≤ s) : L ≤ (L + s - 1) / s * s := by
  have h5 := Nat.div_add_mod (L + s - 1) s
  have h6 : (L + s - 1) % s < s := Nat.mod_lt _ (by omega)
  have hm : (L + s - 1) / s * s = s * ((L + s - 1) / s) := Nat.mul_comm _ _
  omega

/-- Every chunk emitted by the loop, for any configuration (no
`overlap < chunk_size` assumption): its content is a `take chunk_size`,
hence of length at most `chunk_size`, and its metadata is the source
metadata with `"chunk"` set to the running index. -/
lemma chunkAux_mem (C V : Nat) (m : List (String × MVal)) (t : List Char) :
    ∀ fuel start idx l, chunkAux C V m t fuel start idx = some l →
    ∀ i c, l[i]? = some c →
      c.page_content.length ≤ C ∧
      c.metadata = setKey m "chunk" (MVal.num (idx + i)) := by
  intro fuel
  induction fuel with
  | zero => intro start idx l h; simp [chunkAux] at h
  | succ f ih =>
    intro start idx l h i c hc
    by_cases hlt : start < t.length
    · simp only [chunkAux, if_pos hlt] at h
      cases hrec : chunkAux C V m t f (start + C - V) (idx + 1) with
      | none => rw [hrec] at h; exact absurd h (by simp)
      | some rest =>
        rw [hrec] at h
        simp only [Option.some.injEq] at h
        subst h
        cases i with
        | zero =>
          simp only [List.getElem?_cons_zero, Option.some.injEq] at hc
          subst hc
          refine ⟨?_, by simp⟩
          rw [List.length_take]
          exact Nat.min_le_left _ _
        | succ j =>
          simp only [List.getElem?_cons_succ] at hc
          have hj := ih (start + C - V) (idx + 1) rest hrec j c hc
          refine ⟨hj.1, ?_⟩
          have e : idx + 1 + j = idx + (j + 1) := by omega
          rw [hj.2, e]
    · simp only [chunkAux, if_neg hlt, Option.some.injEq] at h
      subst h
      simp at hc

/-- Concrete example document of length 10 used by the witnesses. -/
def exDoc10 : Document :=
  { page_content := "0123456789".data, metadata := [("name", MVal.str "d")] }

/-- C1 (amended): for a non-empty document of length `L` chunked with
`overlap < chunk_size`, `TextChunker.chunk_one` terminates and produces
exactly `ceil(L / (C - V))` chunks (not `ceil(max(L - V, 1) / (C - V))`
as claimed), and the last chunk covers the remainder of the content: its
content is the suffix of the document starting at the last window
start. -/
theorem chunk_one_count_formula (C V : Nat) (doc : Document) (hCV : V < C)
    (hL : 0 < doc.page_content.length) :
    ∃ l, TextChunker.chunk_one C V doc = some l ∧
      l.length = (doc.page_content.length + (C - V) - 1) / (C - V) ∧
      ∃ c, l[l.length - 1]? = some c ∧
        c.page_content = doc.page_content.drop ((l.length - 1) * (C - V)) := by
  obtain ⟨l, h1, h2, h3⟩ := chunk_one_spec C V doc hCV
  have hs : 1 ≤ C - V := by omega
  have hn : 1 ≤ l.length := by
    rw [h2]
    exact (Nat.one_le_div_iff (by omega)).mpr (by omega)
  have hidx : l.length - 1 < l.length := by omega
  have hget := List.getElem?_eq_getElem hidx
  obtain ⟨p1, p2, p3⟩ := h3 (l.length - 1) _ hget
  refine ⟨l, h1, h2, _, hget, ?_⟩
  rw [p1]
  apply List.take_of_length_le
  rw [List.length_drop]
  have hkey : doc.page_content.length ≤ l.length * (C - V) := by
    rw [h2]
    exact ceil_mul_ge _ _ hs
  have hm1 : (l.length - 1) * (C - V) = l.length * (C - V) - (C - V) :=
    Nat.sub_one_mul _ _
  omega

/-- C1 (counterexample): on the 10-character document "0123456789" with
`chunk_size = 5`, `overlap = 2`, the code produces 4 chunks (window
starts 0, 3, 6, 9) while the claimed formula
`ceil(max(L - V, 1) / (C - V)) = ceil(8 / 3)` gives 3. -/
theorem chunk_one_count_claim_false :
    (TextChunker.chunk_one 5 2
        { page_content := "0123456789".data, metadata := [] }).map List.length
      = some 4 ∧
    (max ("0123456789".data.length - 2) 1 + (5 - 2) - 1) / (5 - 2) = 3 ∧
    (4 : Nat) ≠ 3 :=
  ⟨rfl, rfl, by decide⟩

/-- Witness for `chunk_one_count_formula` at `C = 5`, `V = 2` on the
10-character example document. -/
theorem chunk_one_count_formula_witness :
    ∃ l, TextChunker.chunk_one 5 2 exDoc10 = some l ∧
      l.length = (exDoc10.page_content.length + (5 - 2) - 1) / (5 - 2) ∧
      ∃ c, l[l.length - 1]? = some c ∧
        c.page_content = exDoc10.page_content.drop ((l.length - 1) * (5 - 2)) :=
  chunk_one_count_formula 5 2 exDoc10 (by decide) (by decide)

/-- C2 (amended): a non-empty document of length at most
`chunk_size - overlap` (not merely less than `chunk_size`, which is not
enough when `overlap > 0`) yields exactly one chunk whose content is the
whole document content. -/
theorem chunk_one_short_doc (C V : Nat) (doc : Document) (hCV : V < C)
    (hL : 0 < doc.page_content.length)
    (hshort : doc.page_content.length ≤ C - V) :
    TextChunker.chunk_one C V doc =
      some [{ page_content := doc.page_content,
              metadata := setKey doc.metadata "chunk" (MVal.num 0) }] := by
  obtain ⟨l, h1, h2, h3⟩ := chunk_one_spec C V doc hCV
  have hn : l.length = 1 := by
    rw [h2]
    exact Nat.div_eq_of_lt_le (by omega) (by omega)
  obtain ⟨c, rfl⟩ := List.length_eq_one.mp hn
  obtain ⟨p1, p2, p3⟩ := h3 0 c rfl
  rw [h1]
  have hc : c = { page_content := doc.page_content,
                  metadata := setKey doc.metadata "chunk" (MVal.num 0) } := by
    obtain ⟨pc, md⟩ := c
    replace p1 : pc = (doc.page_content.drop (0 * (C - V))).take C := p1
    replace p2 : md = setKey doc.metadata "chunk" (MVal.num 0) := p2
    simp only [Nat.zero_mul, List.drop_zero] at p1
    rw [List.take_of_length_le (by omega)] at p1
    rw [p1, p2]
  rw [hc]

/-- C2 (counterexample): the document "abcd" has length 4, strictly less
than `chunk_size = 5`, yet with `overlap = 3` the code produces 2 chunks
("abcd" and "cd"), not 1. -/
theorem chunk_one_short_claim_false :
    "abcd".data.length = 4 ∧ (4 : Nat) < 5 ∧
    (TextChunker.chunk_one 5 3
        { page_content := "abcd".data, metadata := [] }).map List.length
      = some 2 :=
  ⟨rfl, by decide, rfl⟩

/-- Witness for `chunk_one_short_doc`: "abc" with `chunk_size = 5`,
`overlap = 2` gives the single whole-content chunk. -/
theorem chunk_one_short_doc_witness :
    TextChunker.chunk_one 5 2
        { page_content := "abc".data, metadata := [("name", MVal.str "d")] } =
      some [{ page_content := "abc".data,
              metadata := setKey [("name", MVal.str "d")] "chunk" (MVal.num 0) }] :=
  chunk_one_short_doc 5 2
    { page_content := "abc".data, metadata := [("name", MVal.str "d")] }
    (by decide) (by decide) (by decide)

/-- C3: with `overlap < chunk_size`, chunk `i` of `chunk_one` is the
slice of the content starting at `i * (chunk_size - overlap)` of length
at most `chunk_size` (a `take chunk_size`), and a chunk with index `i`
exists exactly when that window start lies strictly inside the content
(`start < len(t)`). -/
theorem chunk_one_windows (C V : Nat) (doc : Document) (hCV : V < C) :
    ∃ l, TextChunker.chunk_one C V doc = some l ∧
      (∀ i c, l[i]? = some c →
        c.page_content = (doc.page_content.drop (i * (C - V))).take C) ∧
      (∀ i, i < l.length ↔ i * (C - V) < doc.page_content.length) := by
  obtain ⟨l, h1, h2, h3⟩ := chunk_one_spec C V doc hCV
  refine ⟨l, h1, fun i c hc => (h3 i c hc).1, fun i => ⟨?_, ?_⟩⟩
  · intro hi
    exact (h3 i _ (List.getElem?_eq_getElem hi)).2.2
  · intro hi
    by_contra hni
    push_neg at hni
    have hkey : doc.page_content.length ≤ l.length * (C - V) := by
      rw [h2]
      exact ceil_mul_ge _ _ (by omega)
    have hmono : l.length * (C - V) ≤ i * (C - V) :=
      Nat.mul_le_mul_right _ hni
    omega

/-- Witness for `chunk_one_windows` at `C = 5`, `V = 2` on the
10-character example document. -/
theorem chunk_one_windows_witness :
    ∃ l, TextChunker.chunk_one 5 2 exDoc10 = some l ∧
      (∀ i c, l[i]? = some c →
        c.page_content = (exDoc10.page_content.drop (i * (5 - 2))).take 5) ∧
      (∀ i, i < l.length ↔ i * (5 - 2) < exDoc10.page_content.length) :=
  chunk_one_windows 5 2 exDoc10 (by decide)

/-- C4: for every document and every configuration, whenever `chunk_one`
terminates, every produced chunk has content length at most `chunk_size`,
and the chunk at position `i` carries the source metadata extended (dict
update) with the key "chunk" mapped to `i`, indices starting at 0. -/
theorem chunk_one_len_and_meta (C V : Nat) (doc : Document) (l : List Document)
    (h : TextChunker.chunk_one C V doc = some l) :
    ∀ i c, l[i]? = some c →
      c.page_content.length ≤ C ∧
      c.metadata = setKey doc.metadata "chunk" (MVal.num i) := by
  intro i c hc
  have hm := chunkAux_mem C V doc.metadata doc.page_content
    (doc.page_content.length + 1) 0 0 l h i c hc
  simpa using hm

/-- Witness for `chunk_one_len_and_meta`: the second chunk of the
10-character example document at `C = 5`, `V = 2`. -/
theorem chunk_one_len_and_meta_witness :
    (⟨"34567".data, [("name", MVal.str "d"), ("chunk", MVal.num 1)]⟩ :
        Document).page_content.length ≤ 5 ∧
    (⟨"34567".data, [("name", MVal.str "d"), ("chunk", MVal.num 1)]⟩ :
        Document).metadata = setKey exDoc10.metadata "chunk" (MVal.num 1) :=
  chunk_one_len_and_meta 5 2 exDoc10
    [⟨"01234".data, [("name", MVal.str "d"), ("chunk", MVal.num 0)]⟩,
     ⟨"34567".data, [("name", MVal.str "d"), ("chunk", MVal.num 1)]⟩,
     ⟨"6789".data, [("name", MVal.str "d"), ("chunk", MVal.num 2)]⟩,
     ⟨"9".data, [("name", MVal.str "d"), ("chunk", MVal.num 3)]⟩]
    rfl 1 _ rfl

/-- C9: a document with empty content yields zero chunks, for every
`chunk_size` and `overlap` configuration (the loop guard
`start < len(t)` fails immediately). -/
theorem chunk_one_empty_content (C V : Nat) (m : List (String × MVal)) :
    TextChunker.chunk_one C V { page_content := [], metadata := m } = some [] :=
  rfl

/-- C6: `chunk_docs` is the concatenation of `chunk_one` over the input
documents in order (and diverges exactly when `chunk_one` diverges on
some document). -/
theorem chunk_docs_is_concat (C V : Nat) (docs : List Document) :
    TextChunker.chunk_docs C V docs =
      (docs.mapM (TextChunker.chunk_one C V)).map List.flatten := by
  induction docs with
  | nil => rfl
  | cons d ds ih =>
    have hc : (d :: ds).mapM (TextChunker.chunk_one C V) =
        (TextChunker.chunk_one C V d).bind fun y =>
          (ds.mapM (TextChunker.chunk_one C V)).bind fun ys => some (y :: ys) := by
      rw [List.mapM_cons]
      rfl
    rw [hc]
    cases h1 : TextChunker.chunk_one C V d with
    | none =>
      simp only [TextChunker.chunk_docs, h1]
      rfl
    | some parts =>
      cases h2 : List.mapM (TextChunker.chunk_one C V) ds with
      | none =>
        rw [h2] at ih
        simp only [Option.map_none'] at ih
        simp [TextChunker.chunk_docs, h1, ih]
      | some ls =>
        rw [h2] at ih
        simp only [Option.map_some'] at ih
        simp [TextChunker.chunk_docs, h1, ih]

/-! ### Loaders (`src/rag_engine/ingestion/loaders.py`)

File system access and third-party parsing (`open`/`read`, `csv.DictReader`,
`pypdf.PdfReader`) are injected as functions; an `Except.error` models a
raised I/O or parse exception. -/

/-- `DocumentLoader._ext_ok`: case-insensitive extension check,
`p.lower().endswith(ext)`, at the character level: the extension is a
suffix of the lower-cased path. -/
def DocumentLoader.ext_ok (p ext : String) : Bool :=
  List.isSuffixOf ext.data (p.data.map Char.toLower)

/-- Python `Path(p).name`: the final path component. -/
def baseName (p : String) : String :=
  (p.splitOn "/").getLastD p

/-- The Document built by `TXTLoader.load` for one matching path: content
is the stripped file text, metadata carries name/path/type. -/
def txtDoc (p txt : String) : Document :=
  { page_content := txt.trim.data,
    metadata := [("name", MVal.str (baseName p)),
                 ("path", MVal.str p),
                 ("type", MVal.str "txt")] }

/-- `TXTLoader.load`: skip paths whose extension does not match ".txt";
read each matching file (a read failure raises) and emit one Document per
matching path, in input order. -/
def TXTLoader.load (fs : String → Except String String) :
    List String → Except String (List Document)
  | [] => Except.ok []
  | p :: ps =>
    if DocumentLoader.ext_ok p ".txt" = false then
      TXTLoader.load fs ps
    else
      match fs p with
      | Except.error e => Except.error e
      | Except.ok txt =>
        match TXTLoader.load fs ps with
        | Except.error e => Except.error e
        | Except.ok rest => Except.ok (txtDoc p txt :: rest)

/-- The Document built by `CSVLoader.load` for row `i` of a matching
file: the row rendered as comma-separated `k=v` pairs. -/
def csvRowDoc (p : String) (i : Nat) (row : List (String × String)) : Document :=
  { page_content := (String.intercalate ", "
      (row.map fun kv => kv.1 ++ "=" ++ kv.2)).data,
    metadata := [("name", MVal.str (baseName p)),
                 ("path", MVal.str p),
                 ("row", MVal.num i),
                 ("type", MVal.str "csv")] }

/-- `CSVLoader.load`: skip paths whose extension does not match ".csv";
open each matching file (a failure raises) and emit one Document per
parsed row, rows enumerated from 0, in input order. `parse` stands for
`csv.DictReader` applied to the file content. -/
def CSVLoader.load (fs : String → Except String String)
    (parse : String → List (List (String × String))) :
    List String → Except String (List Document)
  | [] => Except.ok []
  | p :: ps =>
    if DocumentLoader.ext_ok p ".csv" = false then
      CSVLoader.load fs parse ps
    else
      match fs p with
      | Except.error e => Except.error e
      | Except.ok content =>
        match CSVLoader.load fs parse ps with
        | Except.error e => Except.error e
        | Except.ok rest =>
          Except.ok (((parse content).enum.map fun ir =>
            csvRowDoc p ir.1 ir.2) ++ rest)

/-- The Document built by `PDFLoader.load` for one matching path with
non-empty joined page text. -/
def pdfDoc (p all_txt : String) : Document :=
  { page_content := all_txt.data,
    metadata := [("name", MVal.str (baseName p)),
                 ("path", MVal.str p),
                 ("type", MVal.str "pdf")] }

/-- `PDFLoader.load`: skip paths whose extension does not match ".pdf";
read the page texts of each matching file (`pypdf` access is injected as
`pages`, a failure raises), join them with newlines, strip, and emit a
Document only when the result is non-empty. -/
def PDFLoader.load (pages : String → Except String (List String)) :
    List String → Except String (List Document)
  | [] => Except.ok []
  | p :: ps =>
    if DocumentLoader.ext_ok p ".pdf" = false then
      PDFLoader.load pages ps
    else
      match pages p with
      | Except.error e => Except.error e
      | Except.ok buf =>
        match PDFLoader.load pages ps with
        | Except.error e => Except.error e
        | Except.ok rest =>
          let all_txt := (String.intercalate "\n" buf).trim
          if all_txt.isEmpty then Except.ok rest
          else Except.ok (pdfDoc p all_txt :: rest)

/-- C7: every loader behaves on an input list exactly as on the sublist
of paths whose extension matches case-insensitively: non-matching paths
are silently skipped, contribute no Document, and can never cause an
error; and the extension check itself is case-insensitive. -/
theorem loaders_skip_nonmatching (fs : String → Except String String)
    (parse : String → List (List (String × String)))
    (pages : String → Except String (List String)) (paths : List String) :
    TXTLoader.load fs paths =
      TXTLoader.load fs (paths.filter fun p => DocumentLoader.ext_ok p ".txt") ∧
    CSVLoader.load fs parse paths =
      CSVLoader.load fs parse (paths.filter fun p => DocumentLoader.ext_ok p ".csv") ∧
    PDFLoader.load pages paths =
      PDFLoader.load pages (paths.filter fun p => DocumentLoader.ext_ok p ".pdf") ∧
    DocumentLoader.ext_ok "REPORT.TXT" ".txt" = true := by
  refine ⟨?_, ?_, ?_, by decide⟩
  · induction paths with
    | nil => rfl
    | cons p ps ih =>
      by_cases h : DocumentLoader.ext_ok p ".txt"
      · simp [TXTLoader.load, List.filter_cons, h, ih]
      · simp [TXTLoader.load, List.filter_cons, h, ih]
  · induction paths with
    | nil => rfl
    | cons p ps ih =>
      by_cases h : DocumentLoader.ext_ok p ".csv"
      · simp [CSVLoader.load, List.filter_cons, h, ih]
      · simp [CSVLoader.load, List.filter_cons, h, ih]
  · induction paths with
    | nil => rfl
    | cons p ps ih =>
      by_cases h : DocumentLoader.ext_ok p ".pdf"
      · simp [PDFLoader.load, List.filter_cons, h, ih]
      · simp [PDFLoader.load, List.filter_cons, h, ih]

/-! ### Embedder (`src/rag_engine/retrieval/retriever.py`)

The HTTP layer (`urllib.request.urlopen`) is injected as a `transport`
function from the request URL and JSON payload to either a parsed JSON
response or a connection error (`urllib.error.URLError`). -/

/-- JSON values appearing in the embedding exchange. -/
inductive JVal where
  | str (s : String)
  | num (n : Int)
  | arr (xs : List JVal)
deriving Repr

/-- An HTTP response: status code and the parsed JSON object body. -/
structure HttpResponse where
  status : Nat
  body : List (String × JVal)

/-- The JSON payload `OllamaEmbedder._get_embedding` sends: exactly the
`model` and `prompt` fields. -/
def OllamaEmbedder.payload (model text : String) : List (String × JVal) :=
  [("model", JVal.str model), ("prompt", JVal.str text)]

/-- The URL `OllamaEmbedder._get_embedding` posts to. -/
def OllamaEmbedder.embeddings_url (base_url : String) : String :=
  base_url ++ "/api/embeddings"

/-- `OllamaEmbedder._get_embedding`: post the payload; a transport
(connection) failure is re-raised as a generic error naming the base
URL; a non-200 status raises; otherwise the result is the "embedding"
field of the response JSON, defaulting to the empty list
(`result.get("embedding", [])`). -/
def OllamaEmbedder.get_embedding
    (transport : String → List (String × JVal) → Except String HttpResponse)
    (model base_url text : String) : Except String JVal :=
  match transport (OllamaEmbedder.embeddings_url base_url)
      (OllamaEmbedder.payload model text) with
  | Except.error e =>
    Except.error ("Failed to connect to Ollama at " ++ base_url ++ ": " ++ e)
  | Except.ok resp =>
    if resp.status ≠ 200 then
      Except.error ("Ollama API returned status " ++ toString resp.status)
    else
      Except.ok ((resp.body.lookup "embedding").getD (JVal.arr []))

/-- `OllamaEmbedder.embed_query`: delegate to `_get_embedding`. -/
def OllamaEmbedder.embed_query
    (transport : String → List (String × JVal) → Except String HttpResponse)
    (model base_url text : String) : Except String JVal :=
  OllamaEmbedder.get_embedding transport model base_url text

/-- C8: `embed_query` posts to the `/api/embeddings` endpoint a JSON
body holding exactly the `model` and `prompt` fields; when the
connection fails (the transport returns an error), it raises a generic
transport error naming the base URL instead of returning a value. -/
theorem embed_query_request_shape_and_transport_error
    (transport : String → List (String × JVal) → Except String HttpResponse)
    (model base_url text e : String)
    (h : transport (base_url ++ "/api/embeddings")
        [("model", JVal.str model), ("prompt", JVal.str text)] = Except.error e) :
    OllamaEmbedder.embed_query transport model base_url text =
      Except.error ("Failed to connect to Ollama at " ++ base_url ++ ": " ++ e) ∧
    OllamaEmbedder.embeddings_url base_url = base_url ++ "/api/embeddings" ∧
    OllamaEmbedder.payload model text =
      [("model", JVal.str model), ("prompt", JVal.str text)] := by
  refine ⟨?_, rfl, rfl⟩
  unfold OllamaEmbedder.embed_query OllamaEmbedder.get_embedding
  rw [show OllamaEmbedder.embeddings_url base_url = base_url ++ "/api/embeddings" from rfl,
      show OllamaEmbedder.payload model text =
        [("model", JVal.str model), ("prompt", JVal.str text)] from rfl, h]

/-- Witness for `embed_query_request_shape_and_transport_error` with a
transport that always refuses the connection. -/
theorem embed_query_transport_error_witness :
    OllamaEmbedder.embed_query (fun _ _ => Except.error "refused")
        "nomic-embed-text" "http://localhost:11434" "hello" =
      Except.error ("Failed to connect to Ollama at " ++ "http://localhost:11434"
        ++ ": " ++ "refused") ∧
    OllamaEmbedder.embeddings_url "http://localhost:11434" =
      "http://localhost:11434" ++ "/api/embeddings" ∧
    OllamaEmbedder.payload "nomic-embed-text" "hello" =
      [("model", JVal.str "nomic-embed-text"), ("prompt", JVal.str "hello")] :=
  embed_query_request_shape_and_transport_error
    (fun _ _ => Except.error "refused") "nomic-embed-text"
    "http://localhost:11434" "hello" "refused" rfl

/-- C10: when the service answers with status 200 and a JSON object
without an "embedding" key, `embed_query` returns the empty vector
instead of raising. -/
theorem embed_query_missing_embedding_key
    (transport : String → List (String × JVal) → Except String HttpResponse)
    (model base_url text : String) (body : List (String × JVal))
    (h : transport (base_url ++ "/api/embeddings")
        [("model", JVal.str model), ("prompt", JVal.str text)] =
        Except.ok { status := 200, body := body })
    (hmiss : body.lookup "embedding" = none) :
    OllamaEmbedder.embed_query transport model base_url text =
      Except.ok (JVal.arr []) := by
  unfold OllamaEmbedder.embed_query OllamaEmbedder.get_embedding
  rw [show OllamaEmbedder.embeddings_url base_url = base_url ++ "/api/embeddings" from rfl,
      show OllamaEmbedder.payload model text =
        [("model", JVal.str model), ("prompt", JVal.str text)] from rfl, h]
  simp [hmiss]

/-- Witness for `embed_query_missing_embedding_key`: a transport that
returns status 200 with an empty JSON object. -/
theorem embed_query_missing_embedding_key_witness :
    OllamaEmbedder.embed_query
        (fun _ _ => Except.ok { status := 200, body := [] })
        "nomic-embed-text" "http://localhost:11434" "hello" =
      Except.ok (JVal.arr []) :=
  embed_query_missing_embedding_key
    (fun _ _ => Except.ok { status := 200, body := [] })
    "nomic-embed-text" "http://localhost:11434" "hello" [] rfl rfl

/-! ### Indexing Engine (spec-modelled)

The orchestrator `rag_engine/indexing/index_engine.py` is not present
under `src/` (only its test suite is), so its `index` method is modelled
from the specification. -/

/-- Mutable engine state: the set of successfully indexed absolute
paths, the last error per originally supplied path, and the append-only
history of (path, success flag, info) records. -/
structure EngineState where
  indexed_files : List String
  failed_files : List (String × String)
  indexing_history : List (String × Bool × String)

/-- Modelled from the spec: `IndexingEngine.index` of
`rag_engine/indexing/index_engine.py`, which is missing from `src/`.
Step 1 validation is injected as `validate` (the error message for an
invalid path, `none` for a valid one); steps 3-6 (resolve loader, load,
chunk, commit) are abstracted as the collaborator `pipeline` giving the
committed chunks; `abs_path` is path resolution. Per the spec: a failure
is recorded against the original path and re-raised; unless
`force_reindex` is set, an absolute path already in `_indexed_files`
makes the call a no-op that returns the empty chunk sequence, does not
raise, and appends a history entry for the skip; on success the absolute
path is added to `_indexed_files` (which keeps at most one entry per
path), the path leaves `_failed_files`, and a success record is
appended. -/
def IndexingEngine.index (abs_path : String → String)
    (validate : String → Option String)
    (pipeline : String → List Document)
    (st : EngineState) (path : String) (force_reindex : Bool) :
    Except String (List Document) × EngineState :=
  match validate path with
  | some msg =>
    (Except.error msg,
     { st with
         failed_files := (st.failed_files.filter fun q => q.1 ≠ path) ++ [(path, msg)],
         indexing_history := st.indexing_history ++ [(path, false, msg)] })
  | none =>
    if force_reindex = false ∧ abs_path path ∈ st.indexed_files then
      (Except.ok [],
       { st with
           indexing_history := st.indexing_history ++ [(path, true, "skipped duplicate")] })
    else
      let chunks := pipeline path
      (Except.ok chunks,
       { indexed_files :=
           if abs_path path ∈ st.indexed_files then st.indexed_files
           else st.indexed_files ++ [abs_path path],
         failed_files := st.failed_files.filter fun q => q.1 ≠ path,
         indexing_history := st.indexing_history ++ [(path, true, toString chunks.length)] })

/-- C5: calling `index` twice on the same valid file without
`force_reindex`, starting from a state not yet holding the file: the
second call returns the empty chunk list without raising, and
`_indexed_files` ends up with exactly one entry for the absolute
path. -/
theorem index_idempotent (abs_path : String → String)
    (validate : String → Option String) (pipeline : String → List Document)
    (st : EngineState) (path : String)
    (hvalid : validate path = none)
    (hfresh : abs_path path ∉ st.indexed_files) :
    ((IndexingEngine.index abs_path validate pipeline
        (IndexingEngine.index abs_path validate pipeline st path false).2
        path false).1 = Except.ok [] ∧
     (IndexingEngine.index abs_path validate pipeline
        (IndexingEngine.index abs_path validate pipeline st path false).2
        path false).2.indexed_files.count (abs_path path) = 1) := by
  have hst1 : (IndexingEngine.index abs_path validate pipeline st path false).2 =
      { indexed_files := st.indexed_files ++ [abs_path path],
        failed_files := st.failed_files.filter fun q => q.1 ≠ path,
        indexing_history :=
          st.indexing_history ++ [(path, true, toString (pipeline path).length)] } := by
    simp [IndexingEngine.index, hvalid, hfresh]
  have hcond : True ∧
      abs_path path ∈ st.indexed_files ++ [abs_path path] := ⟨trivial, by simp⟩
  constructor
  · rw [hst1]
    simp only [IndexingEngine.index, hvalid]
    rw [if_pos hcond]
  · rw [hst1]
    simp only [IndexingEngine.index, hvalid]
    rw [if_pos hcond]
    show (st.indexed_files ++ [abs_path path]).count (abs_path path) = 1
    rw [List.count_append, List.count_eq_zero.mpr hfresh]
    simp

/-- Witness for `index_idempotent`: a fresh engine, an always-valid
file, and a pipeline producing one chunk. -/
theorem index_idempotent_witness :
    ((IndexingEngine.index id (fun _ => none) (fun _ => [exDoc10])
        (IndexingEngine.index id (fun _ => none) (fun _ => [exDoc10])
          { indexed_files := [], failed_files := [], indexing_history := [] }
          "a.txt" false).2
        "a.txt" false).1 = Except.ok [] ∧
     (IndexingEngine.index id (fun _ => none) (fun _ => [exDoc10])
        (IndexingEngine.index id (fun _ => none) (fun _ => [exDoc10])
          { indexed_files := [], failed_files := [], indexing_history := [] }
          "a.txt" false).2
        "a.txt" false).2.indexed_files.count (id "a.txt") = 1) :=
  index_idempotent id (fun _ => none) (fun _ => [exDoc10])
    { indexed_files := [], failed_files := [], indexing_history := [] }
    "a.txt" rfl (by simp)
